import Mathlib

/-!
# Verification of `graphql-to-jddf` (src/main.rs)

A shallow embedding of the repository's single Rust source file, which
translates a GraphQL introspection document into a JDDF schema, together
with theorems settling the frozen claims about it.

Modelling conventions:
* Rust `HashMap<String, _>` values are modelled as association lists
  (`List (String × _)`) whose `mapInsert` operation replaces an existing
  binding, mirroring `HashMap::insert`'s overwrite semantics.  Iteration
  order of a `HashMap` is unspecified in Rust; the claims proved below are
  order-independent (membership, lookup and key-set statements).
* Rust `HashSet<String>` (the payload of `jddf::Form::Enum`) is modelled as
  `Finset String`.
* Every `panic!`-class abort (`unreachable!()`, `Option::unwrap` on `None`)
  and every `Err` return is modelled as `Except.error` carrying a
  `RunError` value.  Distinct panic sites are tagged with their source line
  in `src/main.rs`, since a Rust panic message reports its source location.
  On `Except.error` the process exits non-zero and prints nothing: the
  `println!` in `main` is only reached on the success path.
* The `introspection_query` module (types `ResponseData`, `FullType`,
  `TypeRef`, `TypeRefOfType`, …) is generated from GraphQL files that are
  not part of the sources; those carrier types are modelled from the spec
  (§3, §6) and from the field patterns visible in `main.rs`.  The eight
  structurally identical generated chain types `TypeRef`,
  `TypeRefOfType`, …, `TypeRefOfType…OfType` are modelled by the single
  recursive type `TypeRef`; the eight distinct functions
  `from_type_ref` … `from_type_ref8` are kept as eight distinct
  definitions, exactly as in the source.
-/

/-- Modelled from the spec: the GraphQL `__TypeKind` enum of the generated
`introspection_query` module (spec §3: SCALAR, OBJECT, INTERFACE, UNION,
ENUM, INPUT_OBJECT, plus the wrapper kinds NON_NULL and LIST used by
type-ref chains). -/
inductive TypeKind : Type where
| SCALAR : TypeKind
| OBJECT : TypeKind
| INTERFACE : TypeKind
| UNION : TypeKind
| ENUM : TypeKind
| INPUT_OBJECT : TypeKind
| NON_NULL : TypeKind
| LIST : TypeKind
deriving DecidableEq, Repr

/-- Modelled from the spec: the type-ref chain (spec §3 `TypeRefChain`).
The generated Rust code has eight structurally identical nested struct
types (`TypeRef`, `TypeRefOfType`, …); each carries a `kind`, an optional
`name` and an optional deeper link `of_type`.  They are modelled by one
recursive type. -/
inductive TypeRef : Type where
| mk (kind : TypeKind) (name : Option String) (of_type : Option TypeRef)

/-- The `kind` field of a type-ref link. -/
def TypeRef.kind : TypeRef → TypeKind
| .mk k _ _ => k

/-- The `name` field of a type-ref link. -/
def TypeRef.name : TypeRef → Option String
| .mk _ n _ => n

/-- The `of_type` field of a type-ref link. -/
def TypeRef.of_type : TypeRef → Option TypeRef
| .mk _ _ o => o

/-- Modelled from the spec: a field descriptor of an OBJECT (or an
input-value descriptor of an INPUT_OBJECT): a field name together with its
type-ref chain (`field.name`, `field.type_.type_ref` in `main.rs`). -/
structure FieldDef : Type where
  name : String
  type_ref : TypeRef

/-- Modelled from the spec: one raw type descriptor of the introspection
document (spec §3 `TypeDescriptor`): a `kind` tag, a name, and
kind-dependent optional payloads, exactly the fields matched by
`GraphQLType::from_full_type` in `main.rs`.  A `possible_types` entry
carries just its `type_ref`; an `enum_values` entry carries just its
`name`. -/
structure FullType : Type where
  kind : TypeKind
  name : Option String
  fields : Option (List FieldDef)
  possible_types : Option (List TypeRef)
  enum_values : Option (List String)
  input_fields : Option (List FieldDef)

/-- Modelled from the spec: the `queryType` object of the introspection
schema — an optional root-type name (`query_type.name` in `main.rs`). -/
structure QueryType : Type where
  name : Option String
deriving DecidableEq

/-- Modelled from the spec: the `data.schema` object (spec §6): the root
query type plus the flat list of type descriptors. -/
structure IntrospectionSchema : Type where
  query_type : QueryType
  types : List FullType

/-- Modelled from the spec: the `data` object of the GraphQL response;
its `schema` field is optional (`.ok_or(...)` in `main.rs` line 15). -/
structure ResponseData : Type where
  schema : Option IntrospectionSchema

/-- Modelled from the spec: the full GraphQL response envelope; its `data`
field is optional (`.ok_or(...)` in `main.rs` line 13). -/
structure Response : Type where
  data : Option ResponseData

/-- The ways a run of the program can abort.  `noData` / `noSchema` are the
`format_err!` errors of `main` (lines 13, 15); `unreachableAt line` is the
`unreachable!()` panic at the given line of `src/main.rs` (a Rust panic
message names its source location); `unwrapNoneAt line` is an
`Option::unwrap` panic (the `root_name.unwrap()` at line 39).  Every
`RunError` aborts the process with a non-zero exit and no output. -/
inductive RunError : Type where
| noData : RunError
| noSchema : RunError
| unreachableAt (line : Nat) : RunError
| unwrapNoneAt (line : Nat) : RunError
deriving DecidableEq, Repr

/-- The IR (`enum GraphQLType` in `main.rs`, lines 55–81).  `HashMap`
fields maps are modelled as association lists. -/
inductive GraphQLType : Type where
| Ref (name : String)
| Scalar (name : String)
| Object (name : String) (fields : List (String × GraphQLType))
| Interface (name : String) (impls : List GraphQLType)
| Union (name : String) (types : List GraphQLType)
| Enum (name : String) (values : List String)
| Input (name : String) (fields : List (String × GraphQLType))
| NonNull (inner : GraphQLType)
| List (inner : GraphQLType)
deriving Repr

/-- The primitive types of `jddf::Type` used by the translator. -/
inductive JddfType : Type where
| Int32 : JddfType
| Float64 : JddfType
| Boolean : JddfType
| String : JddfType
deriving DecidableEq, Repr

mutual

/-- `jddf::Schema`, as produced by `jddf::Schema::from_parts`.  Every call
site in `main.rs` passes an empty extra-properties map as the third
argument, so that argument is omitted; the first argument (the optional
`definitions` map) and the boxed form are kept. -/
inductive Schema : Type where
| from_parts (defs : Option (List (String × Schema))) (form : Form)

/-- `jddf::Form` restricted to the constructors used by the translator.
`Enum`'s `HashSet<String>` payload is a `Finset String`. -/
inductive Form : Type where
| Empty : Form
| Ref (name : String) : Form
| Type (t : JddfType) : Form
| Enum (values : Finset String) : Form
| Elements (schema : Schema) : Form
| Properties (required : List (String × Schema)) (optional : List (String × Schema))
    (allow_additional : Bool) (has_required : Bool) : Form

end

/-- `HashMap::insert` on the association-list model: replace the binding
of the key if present, otherwise append it. -/
def mapInsert {α : Type} : List (String × α) → String → α → List (String × α)
| [], k, v => [(k, v)]
| (k', v') :: rest, k, v =>
    if k' = k then (k, v) :: rest else (k', v') :: mapInsert rest k v

/-- `HashMap::get` on the association-list model. -/
def mapGet {α : Type} : List (String × α) → String → Option α
| [], _ => none
| (k', v') :: rest, k => if k' = k then some v' else mapGet rest k

/-- Sequencing a fallible function over a list, short-circuiting on the
first failure: the behaviour of the Rust iterator `collect()` calls when
the mapped closure can panic (the panic aborts the whole collection). -/
def mapExcept {α β : Type} (f : α → Except RunError β) :
    List α → Except RunError (List β)
| [] => .ok []
| a :: rest =>
    match f a with
    | .error e => .error e
    | .ok b =>
        match mapExcept f rest with
        | .error e => .error e
        | .ok bs => .ok (b :: bs)

/-- `GraphQLType::from_type_ref8` (`main.rs` lines 432–442): the innermost
level of the fixed-depth chain walk accepts only a named link; anything
else hits the `unreachable!()` at line 440. -/
def GraphQLType.from_type_ref8 : TypeRef → Except RunError GraphQLType
| .mk _ (some name) _ => .ok (.Ref name)
| _ => .error (.unreachableAt 440)

/-- `GraphQLType::from_type_ref7` (`main.rs` lines 410–430). -/
def GraphQLType.from_type_ref7 : TypeRef → Except RunError GraphQLType
| .mk _ (some name) _ => .ok (.Ref name)
| .mk .NON_NULL none (some of_type) =>
    match GraphQLType.from_type_ref8 of_type with
    | .error e => .error e
    | .ok t => .ok (.NonNull t)
| .mk .LIST none (some of_type) =>
    match GraphQLType.from_type_ref8 of_type with
    | .error e => .error e
    | .ok t => .ok (.List t)
| _ => .error (.unreachableAt 428)

/-- `GraphQLType::from_type_ref6` (`main.rs` lines 389–408). -/
def GraphQLType.from_type_ref6 : TypeRef → Except RunError GraphQLType
| .mk _ (some name) _ => .ok (.Ref name)
| .mk .NON_NULL none (some of_type) =>
    match GraphQLType.from_type_ref7 of_type with
    | .error e => .error e
    | .ok t => .ok (.NonNull t)
| .mk .LIST none (some of_type) =>
    match GraphQLType.from_type_ref7 of_type with
    | .error e => .error e
    | .ok t => .ok (.List t)
| _ => .error (.unreachableAt 406)

/-- `GraphQLType::from_type_ref5` (`main.rs` lines 368–387). -/
def GraphQLType.from_type_ref5 : TypeRef → Except RunError GraphQLType
| .mk _ (some name) _ => .ok (.Ref name)
| .mk .NON_NULL none (some of_type) =>
    match GraphQLType.from_type_ref6 of_type with
    | .error e => .error e
    | .ok t => .ok (.NonNull t)
| .mk .LIST none (some of_type) =>
    match GraphQLType.from_type_ref6 of_type with
    | .error e => .error e
    | .ok t => .ok (.List t)
| _ => .error (.unreachableAt 385)

/-- `GraphQLType::from_type_ref4` (`main.rs` lines 349–366). -/
def GraphQLType.from_type_ref4 : TypeRef → Except RunError GraphQLType
| .mk _ (some name) _ => .ok (.Ref name)
| .mk .NON_NULL none (some of_type) =>
    match GraphQLType.from_type_ref5 of_type with
    | .error e => .error e
    | .ok t => .ok (.NonNull t)
| .mk .LIST none (some of_type) =>
    match GraphQLType.from_type_ref5 of_type with
    | .error e => .error e
    | .ok t => .ok (.List t)
| _ => .error (.unreachableAt 364)

/-- `GraphQLType::from_type_ref3` (`main.rs` lines 330–347). -/
def GraphQLType.from_type_ref3 : TypeRef → Except RunError GraphQLType
| .mk _ (some name) _ => .ok (.Ref name)
| .mk .NON_NULL none (some of_type) =>
    match GraphQLType.from_type_ref4 of_type with
    | .error e => .error e
    | .ok t => .ok (.NonNull t)
| .mk .LIST none (some of_type) =>
    match GraphQLType.from_type_ref4 of_type with
    | .error e => .error e
    | .ok t => .ok (.List t)
| _ => .error (.unreachableAt 345)

/-- `GraphQLType::from_type_ref2` (`main.rs` lines 311–328). -/
def GraphQLType.from_type_ref2 : TypeRef → Except RunError GraphQLType
| .mk _ (some name) _ => .ok (.Ref name)
| .mk .NON_NULL none (some of_type) =>
    match GraphQLType.from_type_ref3 of_type with
    | .error e => .error e
    | .ok t => .ok (.NonNull t)
| .mk .LIST none (some of_type) =>
    match GraphQLType.from_type_ref3 of_type with
    | .error e => .error e
    | .ok t => .ok (.List t)
| _ => .error (.unreachableAt 326)

/-- `GraphQLType::from_type_ref` (`main.rs` lines 292–309): the outermost
level of the chain walk.  A link with a name resolves to `Ref`; a
`NON_NULL`/`LIST` link recurses one level deeper (into `from_type_ref2`)
and wraps the result; anything else is the `unreachable!()` at line 307. -/
def GraphQLType.from_type_ref : TypeRef → Except RunError GraphQLType
| .mk _ (some name) _ => .ok (.Ref name)
| .mk .NON_NULL none (some of_type) =>
    match GraphQLType.from_type_ref2 of_type with
    | .error e => .error e
    | .ok t => .ok (.NonNull t)
| .mk .LIST none (some of_type) =>
    match GraphQLType.from_type_ref2 of_type with
    | .error e => .error e
    | .ok t => .ok (.List t)
| _ => .error (.unreachableAt 307)

mutual

/-- `GraphQLType::into_jddf` (`main.rs` lines 84–201): the schema
translator, one output fragment per IR node.  The `Object`/`Input` field
loops are `partitionFields`; the final catch-all (only the `NonNull`
constructor is left unmatched) is the `unreachable!()` at line 199. -/
def GraphQLType.into_jddf : GraphQLType → Except RunError Schema
| .Ref name => .ok (.from_parts none (.Ref name))
| .Scalar scalar =>
    if scalar = "Int" then .ok (.from_parts none (.Type .Int32))
    else if scalar = "Float" then .ok (.from_parts none (.Type .Float64))
    else if scalar = "Boolean" then .ok (.from_parts none (.Type .Boolean))
    else if scalar = "String" ∨ scalar = "ID" then
      .ok (.from_parts none (.Type .String))
    else .ok (.from_parts none .Empty)
| .Object _ fields =>
    match partitionFields fields [] [] with
    | .error e => .error e
    | .ok (required, optional) =>
        .ok (.from_parts none (.Properties required optional false true))
| .List inner =>
    match inner with
    | .NonNull t =>
        match t.into_jddf with
        | .error e => .error e
        | .ok s => .ok (.from_parts none (.Elements s))
    | _ => .ok (.from_parts none (.Elements (.from_parts none .Empty)))
| .Interface _ _ => .ok (.from_parts none .Empty)
| .Union _ _ => .ok (.from_parts none .Empty)
| .Enum _ values => .ok (.from_parts none (.Enum values.toFinset))
| .Input _ fields =>
    match partitionFields fields [] [] with
    | .error e => .error e
    | .ok (required, optional) =>
        .ok (.from_parts none (.Properties required optional false true))
| .NonNull _ => .error (.unreachableAt 199)
termination_by t => sizeOf t

/-- The field loop of the `Object`/`Input` arms of `into_jddf`
(`main.rs` lines 115–126 and 174–185): walk the fields in order; a
`NonNull`-typed field is unwrapped, translated and inserted into the
`required` map; any other field is translated and inserted into the
`optional` map.  The two accumulators are the two `HashMap`s of the
loop. -/
def partitionFields :
    List (String × GraphQLType) → List (String × Schema) → List (String × Schema) →
    Except RunError (List (String × Schema) × List (String × Schema))
| [], required, optional => .ok (required, optional)
| (name, .NonNull t) :: rest, required, optional =>
    match t.into_jddf with
    | .error e => .error e
    | .ok s => partitionFields rest (mapInsert required name s) optional
| (name, field) :: rest, required, optional =>
    match field.into_jddf with
    | .error e => .error e
    | .ok s => partitionFields rest required (mapInsert optional name s)
termination_by fs _ _ => sizeOf fs

end

/-- The field-collection of the OBJECT / INPUT_OBJECT arms of
`GraphQLType::from_full_type` (`main.rs` lines 228–231, 277–285): resolve
each field descriptor's type-ref chain and collect the `(name, type)`
pairs into a `HashMap` (last write wins on a duplicate field name). -/
def collectFields : List FieldDef → List (String × GraphQLType) →
    Except RunError (List (String × GraphQLType))
| [], acc => .ok acc
| f :: rest, acc =>
    match GraphQLType.from_type_ref f.type_ref with
    | .error e => .error e
    | .ok t => collectFields rest (mapInsert acc f.name t)

/-- `GraphQLType::from_full_type` (`main.rs` lines 211–290): dispatch on
the descriptor's `kind`, requiring the kind-appropriate payload to be
present; any other shape is the `unreachable!()` at line 288.  The
INTERFACE and UNION arms resolve each possible-type's ref chain with
`from_type_ref` and keep whatever IR value resolution produces. -/
def GraphQLType.from_full_type (full_type : FullType) : Except RunError GraphQLType :=
match full_type with
| ⟨.SCALAR, some name, _, _, _, _⟩ => .ok (.Scalar name)
| ⟨.OBJECT, some name, some fields, _, _, _⟩ =>
    match collectFields fields [] with
    | .error e => .error e
    | .ok fs => .ok (.Object name fs)
| ⟨.INTERFACE, some name, _, some possible_types, _, _⟩ =>
    match mapExcept GraphQLType.from_type_ref possible_types with
    | .error e => .error e
    | .ok impls => .ok (.Interface name impls)
| ⟨.UNION, some name, _, some possible_types, _, _⟩ =>
    match mapExcept GraphQLType.from_type_ref possible_types with
    | .error e => .error e
    | .ok types => .ok (.Union name types)
| ⟨.ENUM, some name, _, _, some enum_values, _⟩ => .ok (.Enum name enum_values)
| ⟨.INPUT_OBJECT, some name, _, _, _, some input_fields⟩ =>
    match collectFields input_fields [] with
    | .error e => .error e
    | .ok fs => .ok (.Input name fs)
| _ => .error (.unreachableAt 288)

/-- A list of IR nodes (the result type of `from_schema`; named so that it
can be written inside the `GraphQLType` namespace, where the bare name
`List` denotes the IR's `List` constructor). -/
abbrev IRList : Type := List GraphQLType

/-- `GraphQLType::from_schema` (`main.rs` lines 203–209): build one IR
node per type descriptor, in document order. -/
def GraphQLType.from_schema (schema : IntrospectionSchema) :
    Except RunError IRList :=
  mapExcept GraphQLType.from_full_type schema.types

/-- The name-extraction `match` of `main`'s definitions loop (`main.rs`
lines 21–32); a wrapper IR node at the top level hits the `unreachable!()`
at line 30. -/
def irName : GraphQLType → Except RunError String
| .Object name _ => .ok name
| .Interface name _ => .ok name
| .Union name _ => .ok name
| .Enum name _ => .ok name
| .Input name _ => .ok name
| .Scalar name => .ok name
| _ => .error (.unreachableAt 30)

/-- The definitions loop of `main` (`main.rs` lines 19–35): for each IR
node in order, extract its name and insert its translation into the
`defs` map (`HashMap::insert`: a later node with a duplicate name
overwrites an earlier one). -/
def buildDefsLoop : List GraphQLType → List (String × Schema) →
    Except RunError (List (String × Schema))
| [], defs => .ok defs
| t :: rest, defs =>
    match irName t with
    | .error e => .error e
    | .ok name =>
        match t.into_jddf with
        | .error e => .error e
        | .ok s => buildDefsLoop rest (mapInsert defs name s)

/-- `main` (`main.rs` lines 7–45) after JSON deserialization: unwrap the
envelope (`data`, then `schema`), remember the root type name, build the
IR list, translate it into the definitions map, then `unwrap()` the root
name and assemble the output schema.  An `Except.error` models a fatal
abort: non-zero exit, nothing printed. -/
def runMain (graphql_response : Response) : Except RunError Schema :=
  match graphql_response.data with
  | none => .error .noData
  | some d =>
    match d.schema with
    | none => .error .noSchema
    | some graphql_schema =>
      let root_name := graphql_schema.query_type.name
      match GraphQLType.from_schema graphql_schema with
      | .error e => .error e
      | .ok irs =>
        match buildDefsLoop irs [] with
        | .error e => .error e
        | .ok defs =>
          match root_name with
          | none => .error (.unwrapNoneAt 39)
          | some root => .ok (.from_parts (some defs) (.Ref root))

/-- The depth of a type-ref chain: the number of nested links it carries
(spec §3: a chain "never deeper than 8 wrapper levels"; a terminal named
link is one level, each wrapper adds one). -/
def TypeRef.depth : TypeRef → Nat
| .mk _ _ none => 1
| .mk _ _ (some o) => o.depth + 1

/-- A well-formed type-ref chain as produced by a real introspection
response (spec §3, §4.1): every link either terminates with a resolved
name (and no deeper link), or is a `NON_NULL`/`LIST` wrapper with no name
and a well-formed deeper link. -/
def TypeRef.isChain : TypeRef → Bool
| .mk _ (some _) none => true
| .mk .NON_NULL none (some o) => o.isChain
| .mk .LIST none (some o) => o.isChain
| _ => false

/-- Modelled from the spec: the IR value whose `Ref`/`NonNull`/`List`
nesting "mirrors the input chain's wrapper structure exactly" (spec §4.1
type-ref chain resolution, with no depth ceiling).  Only meaningful on
chains satisfying `TypeRef.isChain`; the final catch-all is arbitrary. -/
def TypeRef.specResolve : TypeRef → GraphQLType
| .mk _ (some name) _ => .Ref name
| .mk .NON_NULL none (some o) => .NonNull o.specResolve
| .mk .LIST none (some o) => .List o.specResolve
| _ => .Ref ""

/-- Wraps a terminal link in `n` `NON_NULL` wrapper links. -/
def nestNonNull : Nat → TypeRef → TypeRef
| 0, t => t
| n + 1, t => .mk .NON_NULL none (some (nestNonNull n t))

/-- A well-formed chain of depth 9: eight `NON_NULL` wrappers around a
named terminal link.  It needs a 9th level of nesting, one more than the
walk `from_type_ref` … `from_type_ref8` supports. -/
def chainDeep9 : TypeRef := nestNonNull 8 (.mk .SCALAR (some "Int") none)

/-- A malformed chain of depth 8 (within the ceiling): seven `NON_NULL`
wrappers around a nameless terminal link — a shape error, not a
too-deep chain. -/
def chainBad8 : TypeRef := nestNonNull 7 (.mk .SCALAR none none)

/-- Whether an IR node is a `NonNull` wrapper (the discriminating test of
the field partition and of the `List` translation rule). -/
def GraphQLType.isNonNull : GraphQLType → Bool
| .NonNull _ => true
| _ => false

/-- Whether an IR node is a bare `Ref` (what the spec requires each
resolved possible-type of an INTERFACE/UNION to be). -/
def GraphQLType.isBareRef : GraphQLType → Bool
| .Ref _ => true
| _ => false

mutual

/-- Every `Properties` form occurring anywhere inside the schema has its
`has_required` flag set to `true`. -/
def Schema.hasRequiredAlways : Schema → Bool
| .from_parts none form => form.hasRequiredAlways
| .from_parts (some defs) form =>
    pairsHasRequiredAlways defs && form.hasRequiredAlways

/-- Every `Properties` form occurring anywhere inside the form has its
`has_required` flag set to `true`. -/
def Form.hasRequiredAlways : Form → Bool
| .Empty => true
| .Ref _ => true
| .Type _ => true
| .Enum _ => true
| .Elements s => s.hasRequiredAlways
| .Properties required optional _ has_required =>
    has_required && pairsHasRequiredAlways required &&
      pairsHasRequiredAlways optional

/-- Every `Properties` form occurring anywhere inside any schema of the
association list has its `has_required` flag set to `true`. -/
def pairsHasRequiredAlways : List (String × Schema) → Bool
| [] => true
| (_, s) :: rest => s.hasRequiredAlways && pairsHasRequiredAlways rest

end

/-- Modelled from the spec: the definitions mapping contains, for each
type name, "the translated fragment of the last descriptor in document
order bearing that name" (spec §3: later entries with a duplicate name
silently overwrite earlier ones).  Entries later in the list take
precedence. -/
def specLastTranslated (n : String) : List GraphQLType → Option Schema
| [] => none
| t :: rest =>
    match specLastTranslated n rest with
    | some s => some s
    | none =>
        match irName t, t.into_jddf with
        | .ok m, .ok s => if m = n then some s else none
        | _, _ => none

theorem mapGet_mapInsert {α : Type} (m : List (String × α)) (k n : String) (v : α) :
    mapGet (mapInsert m k v) n = if k = n then some v else mapGet m n := by
  induction m with
  | nil => simp [mapInsert, mapGet]
  | cons hd rest ih =>
    obtain ⟨k', v'⟩ := hd
    by_cases hk : k' = k
    · subst hk
      by_cases hn : k' = n <;> simp [mapInsert, mapGet, hn]
    · by_cases hn : k' = n
      · subst hn
        have : k ≠ k' := fun hcontra => hk hcontra.symm
        simp [mapInsert, mapGet, hk, this]
      · simp [mapInsert, mapGet, hk, hn, ih]

theorem TypeRef.one_le_depth (c : TypeRef) : 1 ≤ c.depth := by
  obtain ⟨k, n, o⟩ := c
  cases o <;> simp [TypeRef.depth]

theorem from_type_ref8_chain_ok (c : TypeRef) (h : c.isChain = true)
    (hd : c.depth ≤ 1) : GraphQLType.from_type_ref8 c = .ok c.specResolve := by
  obtain ⟨k, n, o⟩ := c
  cases o with
  | none =>
    cases n with
    | none => cases k <;> simp [TypeRef.isChain] at h
    | some nm => cases k <;> simp [GraphQLType.from_type_ref8, TypeRef.specResolve]
  | some o' =>
    exfalso
    have := TypeRef.one_le_depth o'
    simp [TypeRef.depth] at hd
    omega

theorem from_type_ref7_chain_ok (c : TypeRef) (h : c.isChain = true)
    (hd : c.depth ≤ 2) : GraphQLType.from_type_ref7 c = .ok c.specResolve := by
  obtain ⟨k, n, o⟩ := c
  cases n with
  | some nm => cases k <;> simp [GraphQLType.from_type_ref7, TypeRef.specResolve]
  | none =>
    cases o with
    | none => cases k <;> simp [TypeRef.isChain] at h
    | some o' =>
      have hd' : o'.depth ≤ 1 := by simp [TypeRef.depth] at hd; omega
      cases k <;> simp [TypeRef.isChain] at h <;>
        simp [GraphQLType.from_type_ref7, TypeRef.specResolve,
          from_type_ref8_chain_ok o' h hd']

theorem from_type_ref6_chain_ok (c : TypeRef) (h : c.isChain = true)
    (hd : c.depth ≤ 3) : GraphQLType.from_type_ref6 c = .ok c.specResolve := by
  obtain ⟨k, n, o⟩ := c
  cases n with
  | some nm => cases k <;> simp [GraphQLType.from_type_ref6, TypeRef.specResolve]
  | none =>
    cases o with
    | none => cases k <;> simp [TypeRef.isChain] at h
    | some o' =>
      have hd' : o'.depth ≤ 2 := by simp [TypeRef.depth] at hd; omega
      cases k <;> simp [TypeRef.isChain] at h <;>
        simp [GraphQLType.from_type_ref6, TypeRef.specResolve,
          from_type_ref7_chain_ok o' h hd']

theorem from_type_ref5_chain_ok (c : TypeRef) (h : c.isChain = true)
    (hd : c.depth ≤ 4) : GraphQLType.from_type_ref5 c = .ok c.specResolve := by
  obtain ⟨k, n, o⟩ := c
  cases n with
  | some nm => cases k <;> simp [GraphQLType.from_type_ref5, TypeRef.specResolve]
  | none =>
    cases o with
    | none => cases k <;> simp [TypeRef.isChain] at h
    | some o' =>
      have hd' : o'.depth ≤ 3 := by simp [TypeRef.depth] at hd; omega
      cases k <;> simp [TypeRef.isChain] at h <;>
        simp [GraphQLType.from_type_ref5, TypeRef.specResolve,
          from_type_ref6_chain_ok o' h hd']

theorem from_type_ref4_chain_ok (c : TypeRef) (h : c.isChain = true)
    (hd : c.depth ≤ 5) : GraphQLType.from_type_ref4 c = .ok c.specResolve := by
  obtain ⟨k, n, o⟩ := c
  cases n with
  | some nm => cases k <;> simp [GraphQLType.from_type_ref4, TypeRef.specResolve]
  | none =>
    cases o with
    | none => cases k <;> simp [TypeRef.isChain] at h
    | some o' =>
      have hd' : o'.depth ≤ 4 := by simp [TypeRef.depth] at hd; omega
      cases k <;> simp [TypeRef.isChain] at h <;>
        simp [GraphQLType.from_type_ref4, TypeRef.specResolve,
          from_type_ref5_chain_ok o' h hd']

theorem from_type_ref3_chain_ok (c : TypeRef) (h : c.isChain = true)
    (hd : c.depth ≤ 6) : GraphQLType.from_type_ref3 c = .ok c.specResolve := by
  obtain ⟨k, n, o⟩ := c
  cases n with
  | some nm => cases k <;> simp [GraphQLType.from_type_ref3, TypeRef.specResolve]
  | none =>
    cases o with
    | none => cases k <;> simp [TypeRef.isChain] at h
    | some o' =>
      have hd' : o'.depth ≤ 5 := by simp [TypeRef.depth] at hd; omega
      cases k <;> simp [TypeRef.isChain] at h <;>
        simp [GraphQLType.from_type_ref3, TypeRef.specResolve,
          from_type_ref4_chain_ok o' h hd']

theorem from_type_ref2_chain_ok (c : TypeRef) (h : c.isChain = true)
    (hd : c.depth ≤ 7) : GraphQLType.from_type_ref2 c = .ok c.specResolve := by
  obtain ⟨k, n, o⟩ := c
  cases n with
  | some nm => cases k <;> simp [GraphQLType.from_type_ref2, TypeRef.specResolve]
  | none =>
    cases o with
    | none => cases k <;> simp [TypeRef.isChain] at h
    | some o' =>
      have hd' : o'.depth ≤ 6 := by simp [TypeRef.depth] at hd; omega
      cases k <;> simp [TypeRef.isChain] at h <;>
        simp [GraphQLType.from_type_ref2, TypeRef.specResolve,
          from_type_ref3_chain_ok o' h hd']

theorem from_type_ref_chain_ok (c : TypeRef) (h : c.isChain = true)
    (hd : c.depth ≤ 8) : GraphQLType.from_type_ref c = .ok c.specResolve := by
  obtain ⟨k, n, o⟩ := c
  cases n with
  | some nm => cases k <;> simp [GraphQLType.from_type_ref, TypeRef.specResolve]
  | none =>
    cases o with
    | none => cases k <;> simp [TypeRef.isChain] at h
    | some o' =>
      have hd' : o'.depth ≤ 7 := by simp [TypeRef.depth] at hd; omega
      cases k <;> simp [TypeRef.isChain] at h <;>
        simp [GraphQLType.from_type_ref, TypeRef.specResolve,
          from_type_ref2_chain_ok o' h hd']

theorem from_type_ref8_chain_deep (c : TypeRef) (h : c.isChain = true)
    (hd : 2 ≤ c.depth) :
    GraphQLType.from_type_ref8 c = .error (.unreachableAt 440) := by
  obtain ⟨k, n, o⟩ := c
  cases o with
  | none => simp [TypeRef.depth] at hd
  | some o' =>
    cases n with
    | some nm => cases k <;> simp [TypeRef.isChain] at h
    | none => cases k <;> simp [TypeRef.isChain] at h <;>
        simp [GraphQLType.from_type_ref8]

theorem from_type_ref7_chain_deep (c : TypeRef) (h : c.isChain = true)
    (hd : 3 ≤ c.depth) :
    GraphQLType.from_type_ref7 c = .error (.unreachableAt 440) := by
  obtain ⟨k, n, o⟩ := c
  cases o with
  | none => simp [TypeRef.depth] at hd
  | some o' =>
    cases n with
    | some nm => cases k <;> simp [TypeRef.isChain] at h
    | none =>
      have hd' : 2 ≤ o'.depth := by simp [TypeRef.depth] at hd; omega
      cases k <;> simp [TypeRef.isChain] at h <;>
        simp [GraphQLType.from_type_ref7, from_type_ref8_chain_deep o' h hd']

theorem from_type_ref6_chain_deep (c : TypeRef) (h : c.isChain = true)
    (hd : 4 ≤ c.depth) :
    GraphQLType.from_type_ref6 c = .error (.unreachableAt 440) := by
  obtain ⟨k, n, o⟩ := c
  cases o with
  | none => simp [TypeRef.depth] at hd
  | some o' =>
    cases n with
    | some nm => cases k <;> simp [TypeRef.isChain] at h
    | none =>
      have hd' : 3 ≤ o'.depth := by simp [TypeRef.depth] at hd; omega
      cases k <;> simp [TypeRef.isChain] at h <;>
        simp [GraphQLType.from_type_ref6, from_type_ref7_chain_deep o' h hd']

theorem from_type_ref5_chain_deep (c : TypeRef) (h : c.isChain = true)
    (hd : 5 ≤ c.depth) :
    GraphQLType.from_type_ref5 c = .error (.unreachableAt 440) := by
  obtain ⟨k, n, o⟩ := c
  cases o with
  | none => simp [TypeRef.depth] at hd
  | some o' =>
    cases n with
    | some nm => cases k <;> simp [TypeRef.isChain] at h
    | none =>
      have hd' : 4 ≤ o'.depth := by simp [TypeRef.depth] at hd; omega
      cases k <;> simp [TypeRef.isChain] at h <;>
        simp [GraphQLType.from_type_ref5, from_type_ref6_chain_deep o' h hd']

theorem from_type_ref4_chain_deep (c : TypeRef) (h : c.isChain = true)
    (hd : 6 ≤ c.depth) :
    GraphQLType.from_type_ref4 c = .error (.unreachableAt 440) := by
  obtain ⟨k, n, o⟩ := c
  cases o with
  | none => simp [TypeRef.depth] at hd
  | some o' =>
    cases n with
    | some nm => cases k <;> simp [TypeRef.isChain] at h
    | none =>
      have hd' : 5 ≤ o'.depth := by simp [TypeRef.depth] at hd; omega
      cases k <;> simp [TypeRef.isChain] at h <;>
        simp [GraphQLType.from_type_ref4, from_type_ref5_chain_deep o' h hd']

theorem from_type_ref3_chain_deep (c : TypeRef) (h : c.isChain = true)
    (hd : 7 ≤ c.depth) :
    GraphQLType.from_type_ref3 c = .error (.unreachableAt 440) := by
  obtain ⟨k, n, o⟩ := c
  cases o with
  | none => simp [TypeRef.depth] at hd
  | some o' =>
    cases n with
    | some nm => cases k <;> simp [TypeRef.isChain] at h
    | none =>
      have hd' : 6 ≤ o'.depth := by simp [TypeRef.depth] at hd; omega
      cases k <;> simp [TypeRef.isChain] at h <;>
        simp [GraphQLType.from_type_ref3, from_type_ref4_chain_deep o' h hd']

theorem from_type_ref2_chain_deep (c : TypeRef) (h : c.isChain = true)
    (hd : 8 ≤ c.depth) :
    GraphQLType.from_type_ref2 c = .error (.unreachableAt 440) := by
  obtain ⟨k, n, o⟩ := c
  cases o with
  | none => simp [TypeRef.depth] at hd
  | some o' =>
    cases n with
    | some nm => cases k <;> simp [TypeRef.isChain] at h
    | none =>
      have hd' : 7 ≤ o'.depth := by simp [TypeRef.depth] at hd; omega
      cases k <;> simp [TypeRef.isChain] at h <;>
        simp [GraphQLType.from_type_ref2, from_type_ref3_chain_deep o' h hd']

theorem from_type_ref_chain_deep (c : TypeRef) (h : c.isChain = true)
    (hd : 9 ≤ c.depth) :
    GraphQLType.from_type_ref c = .error (.unreachableAt 440) := by
  obtain ⟨k, n, o⟩ := c
  cases o with
  | none => simp [TypeRef.depth] at hd
  | some o' =>
    cases n with
    | some nm => cases k <;> simp [TypeRef.isChain] at h
    | none =>
      have hd' : 8 ≤ o'.depth := by simp [TypeRef.depth] at hd; omega
      cases k <;> simp [TypeRef.isChain] at h <;>
        simp [GraphQLType.from_type_ref, from_type_ref2_chain_deep o' h hd']

/-- **C2** (amended).  For every well-formed type-ref chain of depth 0
through 8 (total nesting levels; every chain has at least one), resolution
terminates and returns an IR value whose `Ref`/`NonNull`/`List` nesting
mirrors the input chain's wrapper structure exactly; for any chain
requiring a 9th level of nesting, resolution fails fast — it never
silently truncates — but with the generic `unreachable!()` panic
(`main.rs` line 440), the same abort that a malformed chain shape at the
8th level produces, not with a dedicated "type nesting too deep" error
distinct from other shape errors. -/
theorem type_ref_chain_resolution_depth :
    (∀ c : TypeRef, c.isChain = true → c.depth ≤ 8 →
      GraphQLType.from_type_ref c = .ok c.specResolve) ∧
    (∀ c : TypeRef, c.isChain = true → 9 ≤ c.depth →
      GraphQLType.from_type_ref c = .error (.unreachableAt 440)) :=
  ⟨from_type_ref_chain_ok, from_type_ref_chain_deep⟩

/-- Witness for `type_ref_chain_resolution_depth`: a well-formed chain of
depth 8 (seven wrappers around a named link) resolves, and `chainDeep9`
(depth 9) is rejected. -/
theorem type_ref_chain_resolution_depth_witness :
    GraphQLType.from_type_ref (nestNonNull 7 (.mk .SCALAR (some "Int") none)) =
      .ok (nestNonNull 7 (.mk .SCALAR (some "Int") none)).specResolve ∧
    GraphQLType.from_type_ref chainDeep9 = .error (.unreachableAt 440) :=
  ⟨type_ref_chain_resolution_depth.1 _
      (by simp [nestNonNull, TypeRef.isChain])
      (by simp [nestNonNull, TypeRef.depth]),
    type_ref_chain_resolution_depth.2 chainDeep9
      (by simp [chainDeep9, nestNonNull, TypeRef.isChain])
      (by simp [chainDeep9, nestNonNull, TypeRef.depth])⟩

/-- Counterexample to **C2** as stated: the claim requires the depth
overflow to fail "with a fatal 'type nesting too deep' error that is
distinct from other shape errors", but the code aborts through the very
same `unreachable!()` panic (line 440 of `main.rs`) that a malformed —
not too deep — chain shape produces: the depth-9 chain `chainDeep9` and
the depth-8 nameless-terminal chain `chainBad8` yield identical errors. -/
theorem type_ref_chain_deep_error_not_distinct :
    chainDeep9.isChain = true ∧ chainDeep9.depth = 9 ∧
    chainBad8.isChain = false ∧ chainBad8.depth = 8 ∧
    GraphQLType.from_type_ref chainDeep9 = .error (.unreachableAt 440) ∧
    GraphQLType.from_type_ref chainBad8 = .error (.unreachableAt 440) := by
  refine ⟨?_, ?_, ?_, ?_, ?_, ?_⟩ <;>
    simp [chainDeep9, chainBad8, nestNonNull, TypeRef.isChain, TypeRef.depth,
      GraphQLType.from_type_ref, GraphQLType.from_type_ref2,
      GraphQLType.from_type_ref3, GraphQLType.from_type_ref4,
      GraphQLType.from_type_ref5, GraphQLType.from_type_ref6,
      GraphQLType.from_type_ref7, GraphQLType.from_type_ref8]

/-- **C3**.  Scalar translation: `"Int"` maps to the 32-bit signed integer
type fragment, `"Float"` to the 64-bit float type fragment, `"Boolean"`
to the boolean type fragment, `"String"` and `"ID"` to the string type
fragment, and every other scalar name to the empty (accepts-anything)
fragment. -/
theorem scalar_translation_table :
    GraphQLType.into_jddf (.Scalar "Int") = .ok (.from_parts none (.Type .Int32)) ∧
    GraphQLType.into_jddf (.Scalar "Float") = .ok (.from_parts none (.Type .Float64)) ∧
    GraphQLType.into_jddf (.Scalar "Boolean") = .ok (.from_parts none (.Type .Boolean)) ∧
    GraphQLType.into_jddf (.Scalar "String") = .ok (.from_parts none (.Type .String)) ∧
    GraphQLType.into_jddf (.Scalar "ID") = .ok (.from_parts none (.Type .String)) ∧
    ∀ s : String, s ∉ (["Int", "Float", "Boolean", "String", "ID"] : List String) →
      GraphQLType.into_jddf (.Scalar s) = .ok (.from_parts none .Empty) := by
  refine ⟨by simp [GraphQLType.into_jddf], by simp [GraphQLType.into_jddf],
    by simp [GraphQLType.into_jddf], by simp [GraphQLType.into_jddf],
    by simp [GraphQLType.into_jddf], fun s hs => ?_⟩
  simp only [List.mem_cons, List.mem_singleton, not_or] at hs
  obtain ⟨h1, h2, h3, h4, h5⟩ := hs
  simp [GraphQLType.into_jddf, h1, h2, h3, h4, h5]

/-- Witness for `scalar_translation_table`: the custom scalar name
`"DateTime"` is not one of the five built-ins and translates to the empty
fragment. -/
theorem scalar_translation_table_witness :
    GraphQLType.into_jddf (.Scalar "DateTime") = .ok (.from_parts none .Empty) :=
  scalar_translation_table.2.2.2.2.2 "DateTime" (by simp)

/-- **C4**.  List translation: `List (NonNull inner)` yields an elements
fragment around the translation of `inner` (whenever that translation
yields a fragment), and `List t` for any non-`NonNull` `t` yields an
elements fragment around the empty fragment, leaving items
unconstrained. -/
theorem list_translation_elements :
    (∀ (t : GraphQLType) (s : Schema), t.into_jddf = .ok s →
      (GraphQLType.List (.NonNull t)).into_jddf =
        .ok (.from_parts none (.Elements s))) ∧
    (∀ t : GraphQLType, t.isNonNull = false →
      (GraphQLType.List t).into_jddf =
        .ok (.from_parts none (.Elements (.from_parts none .Empty)))) := by
  constructor
  · intro t s h
    simp [GraphQLType.into_jddf, h]
  · intro t h
    cases t <;> simp_all [GraphQLType.into_jddf, GraphQLType.isNonNull]

/-- Witness for `list_translation_elements`: a non-null `Int` item type
and a nullable `Ref` item type. -/
theorem list_translation_elements_witness :
    (GraphQLType.List (.NonNull (.Scalar "Int"))).into_jddf =
      .ok (.from_parts none (.Elements (.from_parts none (.Type .Int32)))) ∧
    (GraphQLType.List (.Ref "T")).into_jddf =
      .ok (.from_parts none (.Elements (.from_parts none .Empty))) :=
  ⟨list_translation_elements.1 (.Scalar "Int") _ (by simp [GraphQLType.into_jddf]),
    list_translation_elements.2 (.Ref "T") (by simp [GraphQLType.isNonNull])⟩

/-- **C8**.  Enum translation: an `Enum` IR node translates, without
error, to an enum fragment whose value set is exactly the set of declared
value names (`List.toFinset`: order-independent and deduplicated); the
`Color` example yields exactly `{RED, GREEN, BLUE}`, and a duplicated
value name is not an error. -/
theorem enum_translation_value_set :
    (∀ (nm : String) (values : List String),
      GraphQLType.into_jddf (.Enum nm values) =
        .ok (.from_parts none (.Enum values.toFinset))) ∧
    (∀ (values : List String) (v : String), v ∈ values.toFinset ↔ v ∈ values) ∧
    GraphQLType.into_jddf (.Enum "Color" ["RED", "GREEN", "BLUE"]) =
      .ok (.from_parts none (.Enum {"RED", "GREEN", "BLUE"})) ∧
    GraphQLType.into_jddf (.Enum "Color" ["BLUE", "GREEN", "RED", "RED"]) =
      .ok (.from_parts none (.Enum {"RED", "GREEN", "BLUE"})) := by
  refine ⟨fun nm values => by simp [GraphQLType.into_jddf],
    fun values v => List.mem_toFinset, by simp [GraphQLType.into_jddf], ?_⟩
  have : (["BLUE", "GREEN", "RED", "RED"] : List String).toFinset =
      ({"RED", "GREEN", "BLUE"} : Finset String) := by decide
  simp [GraphQLType.into_jddf, this]

/-- **C9**.  Translation is purely structural: it is a total function of
the single IR node (`into_jddf` takes no definitions environment at all,
so no cross-node lookup can occur), a `Ref` node is emitted as a ref form
and never expanded, and a self-referential object — an IR built from a
circular type graph — translates successfully. -/
theorem translation_structural_no_ref_expansion :
    (∀ name : String,
      GraphQLType.into_jddf (.Ref name) = .ok (.from_parts none (.Ref name))) ∧
    GraphQLType.into_jddf
        (.Object "A" [("self", .NonNull (.Ref "A")), ("friends", .List (.NonNull (.Ref "A")))]) =
      .ok (.from_parts none
        (.Properties [("self", .from_parts none (.Ref "A"))]
          [("friends", .from_parts none (.Elements (.from_parts none (.Ref "A"))))]
          false true)) := by
  constructor
  · intro name
    simp [GraphQLType.into_jddf]
  · simp [GraphQLType.into_jddf, partitionFields, mapInsert]

/-- Counterexample to **C7** as stated: the claim requires the builder to
reject a possible-type whose ref chain resolves to anything other than a
bare `Ref`, but the builder performs no such check: an INTERFACE
descriptor with a `NON_NULL`-wrapped possible-type builds successfully,
the wrapped value being accepted into the interface's `impls` list. -/
theorem interface_wrapped_possible_type_accepted :
    GraphQLType.from_full_type
        ⟨.INTERFACE, some "I",
          none, some [.mk .NON_NULL none (some (.mk .OBJECT (some "X") none))],
          none, none⟩ =
      .ok (.Interface "I" [.NonNull (.Ref "X")]) ∧
    (GraphQLType.NonNull (.Ref "X")).isBareRef = false := by
  constructor
  · simp [GraphQLType.from_full_type, mapExcept, GraphQLType.from_type_ref,
      GraphQLType.from_type_ref2]
  · simp [GraphQLType.isBareRef]

/-- **C7** (amended).  For every INTERFACE or UNION descriptor, the
builder resolves each possible-type's ref chain and stores the resolved
IR values as-is: whenever resolution of all possible-types succeeds, the
build succeeds with exactly those values — including values that are not
bare `Ref`s, which are accepted rather than rejected; the build fails only
when chain resolution itself fails. -/
theorem interface_union_possible_types_unchecked (name : String)
    (pts : List TypeRef) (resolved : List GraphQLType)
    (h : mapExcept GraphQLType.from_type_ref pts = .ok resolved) :
    GraphQLType.from_full_type ⟨.INTERFACE, some name, none, some pts, none, none⟩ =
      .ok (.Interface name resolved) ∧
    GraphQLType.from_full_type ⟨.UNION, some name, none, some pts, none, none⟩ =
      .ok (.Union name resolved) := by
  constructor <;> simp [GraphQLType.from_full_type, h]

/-- Witness for `interface_union_possible_types_unchecked`: a UNION whose
two possible-types resolve to bare refs, and an INTERFACE whose
possible-type resolves to a wrapped (non-bare-`Ref`) value. -/
theorem interface_union_possible_types_unchecked_witness :
    GraphQLType.from_full_type
        ⟨.UNION, some "U",
          none, some [.mk .OBJECT (some "A") none, .mk .OBJECT (some "B") none],
          none, none⟩ =
      .ok (.Union "U" [.Ref "A", .Ref "B"]) ∧
    GraphQLType.from_full_type
        ⟨.INTERFACE, some "J", none, some [.mk .LIST none (some (.mk .OBJECT (some "Y") none))],
          none, none⟩ =
      .ok (.Interface "J" [.List (.Ref "Y")]) :=
  ⟨(interface_union_possible_types_unchecked "U"
      [.mk .OBJECT (some "A") none, .mk .OBJECT (some "B") none]
      [.Ref "A", .Ref "B"]
      (by simp [mapExcept, GraphQLType.from_type_ref])).2,
    (interface_union_possible_types_unchecked "J"
      [.mk .LIST none (some (.mk .OBJECT (some "Y") none))]
      [.List (.Ref "Y")]
      (by simp [mapExcept, GraphQLType.from_type_ref, GraphQLType.from_type_ref2])).1⟩

/-- **C5**.  Malformed envelope: an input document with no `data`, or no
`data.schema`, or a null `queryType.name` makes the run abort with a
fatal error (`Except.error`: non-zero exit, nothing printed, no retry, no
partial schema) — `noData` and `noSchema` for the first two shapes, and
for a null root name some fatal error (the `unwrap` panic at line 39 when
the type list itself builds). -/
theorem malformed_envelope_fatal :
    (∀ resp : Response, resp.data = none → runMain resp = .error .noData) ∧
    (∀ (resp : Response) (d : ResponseData),
      resp.data = some d → d.schema = none → runMain resp = .error .noSchema) ∧
    (∀ (resp : Response) (d : ResponseData) (sch : IntrospectionSchema),
      resp.data = some d → d.schema = some sch → sch.query_type.name = none →
      ∃ e, runMain resp = .error e) := by
  refine ⟨fun resp h => by simp [runMain, h],
    fun resp d h1 h2 => by simp [runMain, h1, h2], ?_⟩
  intro resp d sch h1 h2 h3
  simp only [runMain, h1, h2]
  cases hfs : GraphQLType.from_schema sch with
  | error e => exact ⟨e, by simp [hfs]⟩
  | ok irs =>
    cases hbd : buildDefsLoop irs [] with
    | error e => exact ⟨e, by simp [hfs, hbd]⟩
    | ok defs => exact ⟨.unwrapNoneAt 39, by simp [hfs, hbd, h3]⟩

/-- Witness for `malformed_envelope_fatal`: the three malformed envelopes
at their smallest concrete shapes. -/
theorem malformed_envelope_fatal_witness :
    runMain ⟨none⟩ = .error .noData ∧
    runMain ⟨some ⟨none⟩⟩ = .error .noSchema ∧
    ∃ e, runMain ⟨some ⟨some ⟨⟨none⟩, []⟩⟩⟩ = .error e :=
  ⟨malformed_envelope_fatal.1 ⟨none⟩ rfl,
    malformed_envelope_fatal.2.1 ⟨some ⟨none⟩⟩ ⟨none⟩ rfl rfl,
    malformed_envelope_fatal.2.2 ⟨some ⟨some ⟨⟨none⟩, []⟩⟩⟩ ⟨some ⟨⟨none⟩, []⟩⟩
      ⟨⟨none⟩, []⟩ rfl rfl rfl⟩

theorem partitionFields_cons_nonNull (n0 : String) (u : GraphQLType)
    (rest : List (String × GraphQLType)) (req0 opt0 : List (String × Schema)) :
    partitionFields ((n0, .NonNull u) :: rest) req0 opt0 =
      match u.into_jddf with
      | .error e => .error e
      | .ok s => partitionFields rest (mapInsert req0 n0 s) opt0 := by
  simp [partitionFields]

theorem partitionFields_cons_other (n0 : String) (t0 : GraphQLType)
    (rest : List (String × GraphQLType)) (req0 opt0 : List (String × Schema))
    (h : t0.isNonNull = false) :
    partitionFields ((n0, t0) :: rest) req0 opt0 =
      match t0.into_jddf with
      | .error e => .error e
      | .ok s => partitionFields rest req0 (mapInsert opt0 n0 s) := by
  cases t0 <;> simp_all [partitionFields, GraphQLType.isNonNull]

theorem partitionFields_spec :
    ∀ fs : List (String × GraphQLType), (fs.map Prod.fst).Nodup →
    ∀ req0 opt0 req opt, partitionFields fs req0 opt0 = .ok (req, opt) →
    ((∀ n, n ∉ fs.map Prod.fst →
        mapGet req n = mapGet req0 n ∧ mapGet opt n = mapGet opt0 n) ∧
     (∀ n u, (n, GraphQLType.NonNull u) ∈ fs →
        ∃ si, u.into_jddf = .ok si ∧ mapGet req n = some si ∧
          mapGet opt n = mapGet opt0 n) ∧
     (∀ n u, (n, u) ∈ fs → u.isNonNull = false →
        ∃ si, u.into_jddf = .ok si ∧ mapGet opt n = some si ∧
          mapGet req n = mapGet req0 n)) := by
  intro fs
  induction fs with
  | nil =>
    intro _ req0 opt0 req opt h
    simp only [partitionFields, Except.ok.injEq, Prod.mk.injEq] at h
    obtain ⟨h1, h2⟩ := h
    subst h1; subst h2
    refine ⟨fun n _ => ⟨rfl, rfl⟩, fun n u hmem => absurd hmem (by simp),
      fun n u hmem _ => absurd hmem (by simp)⟩
  | cons hd rest ih =>
    obtain ⟨n0, t0⟩ := hd
    intro hnd req0 opt0 req opt h
    simp only [List.map_cons, List.nodup_cons] at hnd
    obtain ⟨hn0, hnd'⟩ := hnd
    cases ht0 : t0.isNonNull with
    | true =>
      obtain ⟨u, hu0⟩ : ∃ u, t0 = GraphQLType.NonNull u := by
        cases t0 <;>
          first
          | exact ⟨_, rfl⟩
          | (exfalso; simp [GraphQLType.isNonNull] at ht0)
      subst hu0
      rw [partitionFields_cons_nonNull] at h
      cases hu : u.into_jddf with
      | error e => rw [hu] at h; simp at h
      | ok s0 =>
        rw [hu] at h
        obtain ⟨P1, P2, P3⟩ := ih hnd' (mapInsert req0 n0 s0) opt0 req opt h
        refine ⟨?_, ?_, ?_⟩
        · intro n hn
          simp only [List.map_cons, List.mem_cons, not_or] at hn
          obtain ⟨hne, hnr⟩ := hn
          obtain ⟨e1, e2⟩ := P1 n hnr
          refine ⟨?_, e2⟩
          rw [e1, mapGet_mapInsert, if_neg (Ne.symm hne)]
        · intro n u' hmem
          rcases List.mem_cons.mp hmem with heq | hrest
          · injection heq with he1 he2
            injection he2 with he3
            subst he3
            subst he1
            obtain ⟨e1, e2⟩ := P1 n hn0
            refine ⟨s0, hu, ?_, e2⟩
            rw [e1, mapGet_mapInsert, if_pos rfl]
          · exact P2 n u' hrest
        · intro n u' hmem hnn
          rcases List.mem_cons.mp hmem with heq | hrest
          · injection heq with he1 he2
            rw [he2] at hnn
            simp [GraphQLType.isNonNull] at hnn
          · obtain ⟨si, e1, e2, e3⟩ := P3 n u' hrest hnn
            refine ⟨si, e1, e2, ?_⟩
            have hne : n ≠ n0 := by
              intro hcontra
              subst hcontra
              exact hn0 (List.mem_map.mpr ⟨(n, u'), hrest, rfl⟩)
            rw [e3, mapGet_mapInsert, if_neg (Ne.symm hne)]
    | false =>
      rw [partitionFields_cons_other n0 t0 rest req0 opt0 ht0] at h
      cases hu : t0.into_jddf with
      | error e => rw [hu] at h; simp at h
      | ok s0 =>
        rw [hu] at h
        obtain ⟨P1, P2, P3⟩ := ih hnd' req0 (mapInsert opt0 n0 s0) req opt h
        refine ⟨?_, ?_, ?_⟩
        · intro n hn
          simp only [List.map_cons, List.mem_cons, not_or] at hn
          obtain ⟨hne, hnr⟩ := hn
          obtain ⟨e1, e2⟩ := P1 n hnr
          refine ⟨e1, ?_⟩
          rw [e2, mapGet_mapInsert, if_neg (Ne.symm hne)]
        · intro n u' hmem
          rcases List.mem_cons.mp hmem with heq | hrest
          · exfalso
            injection heq with he1 he2
            rw [← he2] at ht0
            simp [GraphQLType.isNonNull] at ht0
          · obtain ⟨si, e1, e2, e3⟩ := P2 n u' hrest
            refine ⟨si, e1, e2, ?_⟩
            have hne : n ≠ n0 := by
              intro hcontra
              subst hcontra
              exact hn0 (List.mem_map.mpr ⟨(n, GraphQLType.NonNull u'), hrest, rfl⟩)
            rw [e3, mapGet_mapInsert, if_neg (Ne.symm hne)]
        · intro n u' hmem hnn
          rcases List.mem_cons.mp hmem with heq | hrest
          · injection heq with he1 he2
            subst he2
            subst he1
            obtain ⟨e1, e2⟩ := P1 n hn0
            refine ⟨s0, hu, ?_, e1⟩
            rw [e2, mapGet_mapInsert, if_pos rfl]
          · exact P3 n u' hrest hnn

/-- **C1**.  Translating an `Object` or `Input` IR node (whenever
translation yields a fragment; field names are unique, as they come from a
`HashMap`) yields a closed properties fragment: every `NonNull`-typed
field is in the required map under its field name with the unwrapped
inner type translated, every other field is in the optional map with its
type translated, the two key sets are disjoint and together are exactly
the node's field-name set, and `allow_additional` is `false`. -/
theorem object_input_translation_partitions_fields (t : GraphQLType)
    (nm : String) (fs : List (String × GraphQLType)) (s : Schema)
    (hshape : t = .Object nm fs ∨ t = .Input nm fs)
    (hnd : (fs.map Prod.fst).Nodup)
    (hok : t.into_jddf = .ok s) :
    ∃ required optional,
      s = .from_parts none (.Properties required optional false true) ∧
      (∀ n u, (n, GraphQLType.NonNull u) ∈ fs →
        ∃ si, u.into_jddf = .ok si ∧ mapGet required n = some si) ∧
      (∀ n u, (n, u) ∈ fs → u.isNonNull = false →
        ∃ si, u.into_jddf = .ok si ∧ mapGet optional n = some si) ∧
      (∀ n, ¬((mapGet required n).isSome = true ∧ (mapGet optional n).isSome = true)) ∧
      (∀ n, ((mapGet required n).isSome = true ∨ (mapGet optional n).isSome = true) ↔
        n ∈ fs.map Prod.fst) := by
  obtain ⟨req, opt, hpf, hs⟩ :
      ∃ req opt, partitionFields fs [] [] = .ok (req, opt) ∧
        s = .from_parts none (.Properties req opt false true) := by
    rcases hshape with rfl | rfl <;>
    · simp only [GraphQLType.into_jddf] at hok
      cases hpf : partitionFields fs [] [] with
      | error e => rw [hpf] at hok; simp at hok
      | ok p =>
        obtain ⟨req, opt⟩ := p
        rw [hpf] at hok
        simp only [Except.ok.injEq] at hok
        exact ⟨req, opt, rfl, hok.symm⟩
  obtain ⟨P1, P2, P3⟩ := partitionFields_spec fs hnd [] [] req opt hpf
  refine ⟨req, opt, hs, ?_, ?_, ?_, ?_⟩
  · intro n u hmem
    obtain ⟨si, e1, e2, _⟩ := P2 n u hmem
    exact ⟨si, e1, e2⟩
  · intro n u hmem hnn
    obtain ⟨si, e1, e2, _⟩ := P3 n u hmem hnn
    exact ⟨si, e1, e2⟩
  · rintro n ⟨hr, ho⟩
    by_cases hmemk : n ∈ fs.map Prod.fst
    · obtain ⟨⟨n', u⟩, hp, hfst⟩ := List.mem_map.mp hmemk
      have he : n' = n := hfst
      have hp' : (n, u) ∈ fs := he ▸ hp
      cases hu : u.isNonNull with
      | false =>
        obtain ⟨si, _, _, e3⟩ := P3 n u hp' hu
        rw [e3] at hr
        simp [mapGet] at hr
      | true =>
        obtain ⟨u', rfl⟩ : ∃ u', u = .NonNull u' := by
          cases u <;>
            first
            | exact ⟨_, rfl⟩
            | (exfalso; simp [GraphQLType.isNonNull] at hu)
        obtain ⟨si, _, _, e3⟩ := P2 n u' hp'
        rw [e3] at ho
        simp [mapGet] at ho
    · obtain ⟨e1, e2⟩ := P1 n hmemk
      rw [e1] at hr
      simp [mapGet] at hr
  · intro n
    constructor
    · intro hor
      by_contra hmemk
      obtain ⟨e1, e2⟩ := P1 n hmemk
      rcases hor with hr | ho
      · rw [e1] at hr; simp [mapGet] at hr
      · rw [e2] at ho; simp [mapGet] at ho
    · intro hmemk
      obtain ⟨⟨n', u⟩, hp, hfst⟩ := List.mem_map.mp hmemk
      have he : n' = n := hfst
      have hp' : (n, u) ∈ fs := he ▸ hp
      cases hu : u.isNonNull with
      | false =>
        obtain ⟨si, _, e2, _⟩ := P3 n u hp' hu
        exact Or.inr (by simp [e2])
      | true =>
        obtain ⟨u', rfl⟩ : ∃ u', u = .NonNull u' := by
          cases u <;>
            first
            | exact ⟨_, rfl⟩
            | (exfalso; simp [GraphQLType.isNonNull] at hu)
        obtain ⟨si, _, e2, _⟩ := P2 n u' hp'
        exact Or.inl (by simp [e2])

/-- Witness for `object_input_translation_partitions_fields`: an object
with one non-null field `a` and one nullable field `b`. -/
theorem object_input_translation_partitions_fields_witness :
    ∃ required optional,
      Schema.from_parts none
          (.Properties [("a", .from_parts none (.Ref "T"))]
            [("b", .from_parts none (.Ref "T"))] false true) =
        .from_parts none (.Properties required optional false true) ∧
      (∀ n u, (n, GraphQLType.NonNull u) ∈
          [("a", GraphQLType.NonNull (.Ref "T")), ("b", GraphQLType.Ref "T")] →
        ∃ si, u.into_jddf = .ok si ∧ mapGet required n = some si) ∧
      (∀ n u, (n, u) ∈
          [("a", GraphQLType.NonNull (.Ref "T")), ("b", GraphQLType.Ref "T")] →
        u.isNonNull = false →
        ∃ si, u.into_jddf = .ok si ∧ mapGet optional n = some si) ∧
      (∀ n, ¬((mapGet required n).isSome = true ∧ (mapGet optional n).isSome = true)) ∧
      (∀ n, ((mapGet required n).isSome = true ∨ (mapGet optional n).isSome = true) ↔
        n ∈ ([("a", GraphQLType.NonNull (.Ref "T")),
          ("b", GraphQLType.Ref "T")] : List (String × GraphQLType)).map Prod.fst) :=
  object_input_translation_partitions_fields
    (.Object "Q" [("a", .NonNull (.Ref "T")), ("b", .Ref "T")]) "Q"
    [("a", .NonNull (.Ref "T")), ("b", .Ref "T")] _ (Or.inl rfl) (by simp)
    (by simp [GraphQLType.into_jddf, partitionFields, mapInsert])

theorem buildDefsLoop_mapGet :
    ∀ (irs : List GraphQLType) (defs0 defs : List (String × Schema)),
    buildDefsLoop irs defs0 = .ok defs → ∀ n,
    mapGet defs n =
      match specLastTranslated n irs with
      | some s => some s
      | none => mapGet defs0 n := by
  intro irs
  induction irs with
  | nil =>
    intro defs0 defs h n
    simp only [buildDefsLoop, Except.ok.injEq] at h
    subst h
    simp [specLastTranslated]
  | cons t rest ih =>
    intro defs0 defs h n
    simp only [buildDefsLoop] at h
    cases hn : irName t with
    | error e => rw [hn] at h; simp at h
    | ok m =>
      rw [hn] at h
      cases hs : t.into_jddf with
      | error e => rw [hs] at h; simp at h
      | ok s =>
        rw [hs] at h
        have hrec := ih (mapInsert defs0 m s) defs h n
        rw [hrec]
        simp only [specLastTranslated, hn, hs]
        cases hrest : specLastTranslated n rest with
        | some s' => simp
        | none =>
          rw [mapGet_mapInsert]
          by_cases hmn : m = n <;> simp [hmn]

/-- **C6**.  A successful run's output is exactly the pair of (a) the
definitions map built by inserting, in document order, each IR node's
translation under its name — so for each name the map holds the
translation of the last descriptor bearing it, later duplicates silently
overwriting earlier ones (`specLastTranslated`) — and (b) a root form
that is a ref to the query root type's name; nothing more. -/
theorem output_definitions_last_wins_and_root_ref (resp : Response)
    (out : Schema) (h : runMain resp = .ok out) :
    ∃ d sch irs defs root,
      resp.data = some d ∧ d.schema = some sch ∧
      GraphQLType.from_schema sch = .ok irs ∧
      buildDefsLoop irs [] = .ok defs ∧
      sch.query_type.name = some root ∧
      out = .from_parts (some defs) (.Ref root) ∧
      (∀ n, mapGet defs n = specLastTranslated n irs) := by
  cases hd : resp.data with
  | none =>
    have h2 : runMain resp = .error .noData := by simp [runMain, hd]
    rw [h2] at h; simp at h
  | some d =>
    cases hsch : d.schema with
    | none =>
      have h2 : runMain resp = .error .noSchema := by simp [runMain, hd, hsch]
      rw [h2] at h; simp at h
    | some sch =>
      cases hfs : GraphQLType.from_schema sch with
      | error e =>
        have h2 : runMain resp = .error e := by simp [runMain, hd, hsch, hfs]
        rw [h2] at h; simp at h
      | ok irs =>
        cases hbd : buildDefsLoop irs [] with
        | error e =>
          have h2 : runMain resp = .error e := by
            simp [runMain, hd, hsch, hfs, hbd]
          rw [h2] at h; simp at h
        | ok defs =>
          cases hroot : sch.query_type.name with
          | none =>
            have h2 : runMain resp = .error (.unwrapNoneAt 39) := by
              simp [runMain, hd, hsch, hfs, hbd, hroot]
            rw [h2] at h; simp at h
          | some root =>
            have h2 : runMain resp = .ok (.from_parts (some defs) (.Ref root)) := by
              simp [runMain, hd, hsch, hfs, hbd, hroot]
            rw [h2] at h
            simp only [Except.ok.injEq] at h
            refine ⟨d, sch, irs, defs, root, rfl, hsch, hfs, hbd, hroot, h.symm, ?_⟩
            intro n
            rw [buildDefsLoop_mapGet irs [] defs hbd n]
            cases hlast : specLastTranslated n irs <;> simp [mapGet]

/-- Witness for `output_definitions_last_wins_and_root_ref`: a document
with two descriptors both named `Q` (a custom scalar, then an enum); the
run succeeds, the definitions map holds the enum (the later descriptor
overwrote the scalar), and the root form is `ref Q`. -/
theorem output_definitions_last_wins_and_root_ref_witness :
    ∃ d sch irs defs root,
      (Response.mk (some ⟨some ⟨⟨some "Q"⟩,
          [⟨.SCALAR, some "Q", none, none, none, none⟩,
            ⟨.ENUM, some "Q", none, none, some ["A"], none⟩]⟩⟩)).data = some d ∧
      d.schema = some sch ∧
      GraphQLType.from_schema sch = .ok irs ∧
      buildDefsLoop irs [] = .ok defs ∧
      sch.query_type.name = some root ∧
      Schema.from_parts (some [("Q", .from_parts none (.Enum {"A"}))]) (.Ref "Q") =
        .from_parts (some defs) (.Ref root) ∧
      (∀ n, mapGet defs n = specLastTranslated n irs) :=
  output_definitions_last_wins_and_root_ref
    (Response.mk (some ⟨some ⟨⟨some "Q"⟩,
      [⟨.SCALAR, some "Q", none, none, none, none⟩,
        ⟨.ENUM, some "Q", none, none, some ["A"], none⟩]⟩⟩))
    (.from_parts (some [("Q", .from_parts none (.Enum {"A"}))]) (.Ref "Q"))
    (by simp [runMain, GraphQLType.from_schema, mapExcept, GraphQLType.from_full_type,
      buildDefsLoop, irName, GraphQLType.into_jddf, mapInsert])

theorem pairsHasRequiredAlways_mapInsert (m : List (String × Schema))
    (k : String) (v : Schema) (hm : pairsHasRequiredAlways m = true)
    (hv : v.hasRequiredAlways = true) :
    pairsHasRequiredAlways (mapInsert m k v) = true := by
  induction m with
  | nil => simp [mapInsert, pairsHasRequiredAlways, hv]
  | cons hd rest ih =>
    obtain ⟨k', v'⟩ := hd
    simp only [pairsHasRequiredAlways, Bool.and_eq_true] at hm
    obtain ⟨h1, h2⟩ := hm
    by_cases hk : k' = k
    · subst hk
      simp [mapInsert, pairsHasRequiredAlways, hv, h2]
    · simp [mapInsert, hk, pairsHasRequiredAlways, h1, ih h2]

theorem into_jddf_hasRequired_aux :
    ∀ N : Nat,
      (∀ t : GraphQLType, sizeOf t ≤ N → ∀ s, t.into_jddf = .ok s →
        s.hasRequiredAlways = true) ∧
      (∀ fs : List (String × GraphQLType), sizeOf fs ≤ N →
        ∀ req0 opt0 req opt,
          pairsHasRequiredAlways req0 = true → pairsHasRequiredAlways opt0 = true →
          partitionFields fs req0 opt0 = .ok (req, opt) →
          pairsHasRequiredAlways req = true ∧ pairsHasRequiredAlways opt = true) := by
  intro N
  induction N using Nat.strong_induction_on with
  | _ N IH =>
    constructor
    · intro t ht s hok
      cases t with
      | Ref name =>
        simp only [GraphQLType.into_jddf, Except.ok.injEq] at hok
        subst hok
        simp [Schema.hasRequiredAlways, Form.hasRequiredAlways]
      | Scalar sc =>
        simp only [GraphQLType.into_jddf] at hok
        repeat' split at hok
        all_goals simp only [Except.ok.injEq] at hok
        all_goals subst hok
        all_goals simp [Schema.hasRequiredAlways, Form.hasRequiredAlways]
      | Object nm fields =>
        simp only [GraphQLType.into_jddf] at hok
        cases hpf : partitionFields fields [] [] with
        | error e => rw [hpf] at hok; simp at hok
        | ok p =>
          obtain ⟨req, opt⟩ := p
          rw [hpf] at hok
          simp only [Except.ok.injEq] at hok
          subst hok
          have hlt : sizeOf fields < N := by
            have : sizeOf fields < sizeOf (GraphQLType.Object nm fields) := by
              simp
            omega
          obtain ⟨hreq, hopt⟩ := (IH (sizeOf fields) hlt).2 fields le_rfl [] []
            req opt rfl rfl hpf
          simp [Schema.hasRequiredAlways, Form.hasRequiredAlways, hreq, hopt]
      | Interface nm impls =>
        simp only [GraphQLType.into_jddf, Except.ok.injEq] at hok
        subst hok
        simp [Schema.hasRequiredAlways, Form.hasRequiredAlways]
      | Union nm types =>
        simp only [GraphQLType.into_jddf, Except.ok.injEq] at hok
        subst hok
        simp [Schema.hasRequiredAlways, Form.hasRequiredAlways]
      | Enum nm values =>
        simp only [GraphQLType.into_jddf, Except.ok.injEq] at hok
        subst hok
        simp [Schema.hasRequiredAlways, Form.hasRequiredAlways]
      | Input nm fields =>
        simp only [GraphQLType.into_jddf] at hok
        cases hpf : partitionFields fields [] [] with
        | error e => rw [hpf] at hok; simp at hok
        | ok p =>
          obtain ⟨req, opt⟩ := p
          rw [hpf] at hok
          simp only [Except.ok.injEq] at hok
          subst hok
          have hlt : sizeOf fields < N := by
            have : sizeOf fields < sizeOf (GraphQLType.Input nm fields) := by
              simp
            omega
          obtain ⟨hreq, hopt⟩ := (IH (sizeOf fields) hlt).2 fields le_rfl [] []
            req opt rfl rfl hpf
          simp [Schema.hasRequiredAlways, Form.hasRequiredAlways, hreq, hopt]
      | NonNull inner =>
        simp only [GraphQLType.into_jddf] at hok
        simp at hok
      | List inner =>
        cases inner with
        | NonNull t' =>
          simp only [GraphQLType.into_jddf] at hok
          cases hti : t'.into_jddf with
          | error e => rw [hti] at hok; simp at hok
          | ok s' =>
            rw [hti] at hok
            simp only [Except.ok.injEq] at hok
            subst hok
            have hlt : sizeOf t' < N := by
              have : sizeOf t' < sizeOf (GraphQLType.List (.NonNull t')) := by
                simp
                omega
              omega
            have hs' := (IH (sizeOf t') hlt).1 t' le_rfl s' hti
            simp [Schema.hasRequiredAlways, Form.hasRequiredAlways, hs']
        | Ref r =>
          simp only [GraphQLType.into_jddf, Except.ok.injEq] at hok
          subst hok
          simp [Schema.hasRequiredAlways, Form.hasRequiredAlways]
        | Scalar sc =>
          simp only [GraphQLType.into_jddf, Except.ok.injEq] at hok
          subst hok
          simp [Schema.hasRequiredAlways, Form.hasRequiredAlways]
        | Object nm fields =>
          simp only [GraphQLType.into_jddf, Except.ok.injEq] at hok
          subst hok
          simp [Schema.hasRequiredAlways, Form.hasRequiredAlways]
        | Interface nm impls =>
          simp only [GraphQLType.into_jddf, Except.ok.injEq] at hok
          subst hok
          simp [Schema.hasRequiredAlways, Form.hasRequiredAlways]
        | Union nm types =>
          simp only [GraphQLType.into_jddf, Except.ok.injEq] at hok
          subst hok
          simp [Schema.hasRequiredAlways, Form.hasRequiredAlways]
        | Enum nm values =>
          simp only [GraphQLType.into_jddf, Except.ok.injEq] at hok
          subst hok
          simp [Schema.hasRequiredAlways, Form.hasRequiredAlways]
        | Input nm fields =>
          simp only [GraphQLType.into_jddf, Except.ok.injEq] at hok
          subst hok
          simp [Schema.hasRequiredAlways, Form.hasRequiredAlways]
        | List inner' =>
          simp only [GraphQLType.into_jddf, Except.ok.injEq] at hok
          subst hok
          simp [Schema.hasRequiredAlways, Form.hasRequiredAlways]
    · intro fs hsz req0 opt0 req opt hr0 ho0 hpf
      cases fs with
      | nil =>
        simp only [partitionFields, Except.ok.injEq, Prod.mk.injEq] at hpf
        obtain ⟨h1, h2⟩ := hpf
        subst h1; subst h2
        exact ⟨hr0, ho0⟩
      | cons hd rest =>
        obtain ⟨n0, t0⟩ := hd
        cases ht0 : t0.isNonNull with
        | true =>
          obtain ⟨u, hu0⟩ : ∃ u, t0 = GraphQLType.NonNull u := by
            cases t0 <;>
              first
              | exact ⟨_, rfl⟩
              | (exfalso; simp [GraphQLType.isNonNull] at ht0)
          subst hu0
          rw [partitionFields_cons_nonNull] at hpf
          cases hu : u.into_jddf with
          | error e => rw [hu] at hpf; simp at hpf
          | ok s0 =>
            rw [hu] at hpf
            have hltu : sizeOf u < N := by
              have : sizeOf u <
                  sizeOf ((n0, GraphQLType.NonNull u) :: rest) := by
                simp
                omega
              omega
            have hs0 := (IH (sizeOf u) hltu).1 u le_rfl s0 hu
            have hltr : sizeOf rest < N := by
              have : sizeOf rest <
                  sizeOf ((n0, GraphQLType.NonNull u) :: rest) := by
                simp
              omega
            exact (IH (sizeOf rest) hltr).2 rest le_rfl
              (mapInsert req0 n0 s0) opt0 req opt
              (pairsHasRequiredAlways_mapInsert req0 n0 s0 hr0 hs0) ho0 hpf
        | false =>
          rw [partitionFields_cons_other n0 t0 rest req0 opt0 ht0] at hpf
          cases hu : t0.into_jddf with
          | error e => rw [hu] at hpf; simp at hpf
          | ok s0 =>
            rw [hu] at hpf
            have hltu : sizeOf t0 < N := by
              have : sizeOf t0 < sizeOf ((n0, t0) :: rest) := by
                simp
                omega
              omega
            have hs0 := (IH (sizeOf t0) hltu).1 t0 le_rfl s0 hu
            have hltr : sizeOf rest < N := by
              have : sizeOf rest < sizeOf ((n0, t0) :: rest) := by
                simp
              omega
            exact (IH (sizeOf rest) hltr).2 rest le_rfl
              req0 (mapInsert opt0 n0 s0) req opt
              hr0 (pairsHasRequiredAlways_mapInsert opt0 n0 s0 ho0 hs0) hpf

/-- **C10**.  Every properties fragment the translator produces has
`has_required = true`: any fragment yielded by `into_jddf` satisfies the
recursive check `hasRequiredAlways` (every `Properties` form anywhere
inside it carries `has_required = true`), and an `Object` or `Input` node
with no fields at all — hence an empty required map — still gets
`has_required = true`. -/
theorem has_required_always_true :
    (∀ (t : GraphQLType) (s : Schema), t.into_jddf = .ok s →
      s.hasRequiredAlways = true) ∧
    (∀ nm : String,
      GraphQLType.into_jddf (.Object nm []) =
        .ok (.from_parts none (.Properties [] [] false true)) ∧
      GraphQLType.into_jddf (.Input nm []) =
        .ok (.from_parts none (.Properties [] [] false true))) :=
  ⟨fun t s h => (into_jddf_hasRequired_aux (sizeOf t)).1 t le_rfl s h,
    fun nm => ⟨by simp [GraphQLType.into_jddf, partitionFields],
      by simp [GraphQLType.into_jddf, partitionFields]⟩⟩

/-- Witness for `has_required_always_true`: the translation of a concrete
object with a required and an optional field passes `hasRequiredAlways`. -/
theorem has_required_always_true_witness :
    (Schema.from_parts none
        (.Properties [("a", .from_parts none (.Type .Int32))]
          [("b", .from_parts none .Empty)] false true)).hasRequiredAlways = true :=
  has_required_always_true.1
    (.Object "W" [("a", .NonNull (.Scalar "Int")), ("b", .Scalar "JSON")])
    _ (by simp [GraphQLType.into_jddf, partitionFields, mapInsert])
